import Mathlib

/-!
Shallow embedding of the materials_analysis knowledge-graph core.

Sources embedded here:
* the `KnowledgeGraph` class (graph store, similarity engine, query index,
  stats aggregation) of the knowledge-graph service;
* `GraphPersistence.saveGraph` / `loadGraph` of
  `services/knowledge-graph/src/graph-persist.js` (the snapshot round trip);
* the RAG helpers `extractKeywords`, `rankArticlesByRelevance`, and the
  `POST /api/query` aggregation of `services/frontend/src/routes.js`.

JavaScript `Map` and `Set` are modelled as insertion-ordered association
lists (`JsMap`, `JsSet`), which reproduces the insertion-order iteration,
overwrite-in-place and idempotent-add semantics of the originals.
`undefined`/absent fields are modelled with `Option`; a property access on
a possibly-`undefined` value that would throw a `TypeError` in JS is
modelled with `Except`.
-/

namespace MaterialsAnalysis

/-! ## JS string primitives -/

/-- Model of `String.prototype.toLowerCase` (per-character case folding). -/
def lowerStr (s : String) : String := ⟨s.data.map Char.toLower⟩

/-- `isInfixList pat text`: `pat` occurs as a contiguous run inside `text`. -/
def isInfixList (pat : List Char) : List Char → Bool
  | [] => pat.isEmpty
  | c :: rest => pat.isPrefixOf (c :: rest) || isInfixList pat rest

/-- Model of `s.includes(pat)` for JS strings. -/
def jsIncludes (s pat : String) : Bool := isInfixList pat.data s.data

/-! ## JS `Map` and `Set` -/

/-- A JS `Map` with string keys: insertion-ordered entry list; `set` on an
existing key overwrites the value in place. -/
structure JsMap (β : Type) where
  entries : List (String × β)
deriving DecidableEq, Repr

namespace JsMap

def empty : JsMap β := ⟨[]⟩

def setEntries (k : String) (v : β) : List (String × β) → List (String × β)
  | [] => [(k, v)]
  | (k', v') :: rest =>
    if k' = k then (k, v) :: rest else (k', v') :: setEntries k v rest

/-- `m.set(k, v)`. -/
def set (m : JsMap β) (k : String) (v : β) : JsMap β :=
  ⟨setEntries k v m.entries⟩

/-- `m.get(k)` (`none` models `undefined`). -/
def get (m : JsMap β) (k : String) : Option β :=
  (m.entries.find? (fun p => p.1 = k)).map (fun p => p.2)

/-- `m.has(k)`. -/
def has (m : JsMap β) (k : String) : Bool :=
  m.entries.any (fun p => p.1 = k)

/-- `m.size`. -/
def size (m : JsMap β) : Nat := m.entries.length

/-- `Array.from(m.values())`. -/
def values (m : JsMap β) : List β := m.entries.map (fun p => p.2)

/-- `Array.from(m.keys())`. -/
def keys (m : JsMap β) : List String := m.entries.map (fun p => p.1)

end JsMap

/-- A JS `Set` of strings: insertion-ordered element list; `add` of a
present element is a no-op. -/
structure JsSet where
  elems : List String
deriving DecidableEq, Repr

namespace JsSet

def empty : JsSet := ⟨[]⟩

/-- `s.add(x)`. -/
def add (s : JsSet) (x : String) : JsSet :=
  if x ∈ s.elems then s else ⟨s.elems ++ [x]⟩

/-- `s.size`. -/
def size (s : JsSet) : Nat := s.elems.length

end JsSet

/-! ## Data model -/

/-- `labels.entities` sub-record; every field may be absent. -/
structure Entities where
  people : Option (List String)
  organizations : Option (List String)
  locations : Option (List String)
  products : Option (List String)
deriving DecidableEq, Repr

/-- The optional, loosely-shaped `labels` record attached to an article. -/
structure LabelsData where
  categories : Option (List String)
  topics : Option (List String)
  keywords : Option (List String)
  entities : Option Entities
  sentiment : Option String
  summary : Option String
deriving DecidableEq, Repr

/-- The empty JS object `{}` used to default a missing `labels`. -/
def emptyLabels : LabelsData := ⟨none, none, none, none, none, none⟩

/-- Input article shape (from the labelling collaborator); `title`, `url`
and `labels` may be absent. -/
structure Article where
  id : String
  title : Option String
  url : Option String
  labels : Option LabelsData
deriving DecidableEq, Repr

/-- Stored node data built by `addArticleNode`. -/
structure NodeData where
  id : String
  title : Option String
  url : Option String
  labels : Option LabelsData
  addedAt : String
deriving DecidableEq, Repr

/-- Opaque edge metadata record. -/
abbrev MetaRecord := List (String × String)

/-- Stored edge data built by `addRelationship`. -/
structure Edge where
  id : String
  fromId : String
  toId : String
  type : String
  metadata : MetaRecord
  createdAt : String
deriving DecidableEq, Repr

/-- The three structures of the `KnowledgeGraph` class. -/
structure KnowledgeGraph where
  nodes : JsMap NodeData
  edges : JsMap Edge
  nodeEdges : JsMap JsSet
deriving DecidableEq, Repr

/-- Errors thrown by the store: the explicit endpoint check, and the JS
`TypeError` raised by a property access on `undefined`. -/
inductive GraphError where
  | nodeNotFound
  | typeError
deriving DecidableEq, Repr

/-! ## Graph mutation (`addArticleNode`, `addRelationship`) -/

/-- `KnowledgeGraph.addArticleNode(article)`; `now` stands for
`new Date().toISOString()`.  `labels: article.labels || {}` normalizes a
missing labels record to `{}`. -/
def addArticleNode (g : KnowledgeGraph) (article : Article) (now : String) :
    NodeData × KnowledgeGraph :=
  let nodeData : NodeData :=
    ⟨article.id, article.title, article.url,
      some (article.labels.getD emptyLabels), now⟩
  let nodes' := g.nodes.set article.id nodeData
  let nodeEdges' :=
    if g.nodeEdges.has article.id then g.nodeEdges
    else g.nodeEdges.set article.id JsSet.empty
  (nodeData, ⟨nodes', g.edges, nodeEdges'⟩)

/-- The deterministic edge id `${fromId}-${relationshipType}-${toId}`. -/
def edgeIdOf (fromId relationshipType toId : String) : String :=
  fromId ++ "-" ++ relationshipType ++ "-" ++ toId

/-- `KnowledgeGraph.addRelationship(fromId, toId, relationshipType, metadata)`.
A thrown error carries the graph state at throw time, so that partial
mutation (or its absence) is observable. The endpoint-existence check
precedes every mutation; the `edges.set` precedes the two adjacency
registrations, each of which would raise a `TypeError` were the adjacency
entry absent. -/
def addRelationship (g : KnowledgeGraph) (fromId toId relationshipType : String)
    (metadata : MetaRecord) (now : String) :
    Except (GraphError × KnowledgeGraph) (Edge × KnowledgeGraph) :=
  if ¬ (g.nodes.has fromId ∧ g.nodes.has toId) then
    .error (.nodeNotFound, g)
  else
    let edgeId := edgeIdOf fromId relationshipType toId
    let edge : Edge := ⟨edgeId, fromId, toId, relationshipType, metadata, now⟩
    let g1 : KnowledgeGraph := ⟨g.nodes, g.edges.set edgeId edge, g.nodeEdges⟩
    match g1.nodeEdges.get fromId with
    | none => .error (.typeError, g1)
    | some sFrom =>
      let g2 : KnowledgeGraph :=
        ⟨g1.nodes, g1.edges, g1.nodeEdges.set fromId (sFrom.add edgeId)⟩
      match g2.nodeEdges.get toId with
      | none => .error (.typeError, g2)
      | some sTo =>
        .ok (edge, ⟨g2.nodes, g2.edges, g2.nodeEdges.set toId (sTo.add edgeId)⟩)

/-! ## Similarity engine -/

/-- `findSharedItems(arr1, arr2)`: keeps the items of `arr2` whose
lower-casing occurs among the lower-casings of `arr1`. -/
def findSharedItems (arr1 arr2 : List String) : List String :=
  let set1 := arr1.map lowerStr
  arr2.filter (fun item => lowerStr item ∈ set1)

/-- The weighted-sum body of `calculateSimilarity`, on two present labels
records (fields default to `[]` via `|| []`; the entities block runs only
when both `entities` records are present). -/
def calcSimilarityL (l1 l2 : LabelsData) : Nat :=
  let sharedCategories := findSharedItems (l1.categories.getD []) (l2.categories.getD [])
  let sharedTopics := findSharedItems (l1.topics.getD []) (l2.topics.getD [])
  let sharedKeywords := findSharedItems (l1.keywords.getD []) (l2.keywords.getD [])
  let entityScore :=
    match l1.entities, l2.entities with
    | some e1, some e2 =>
      (findSharedItems (e1.people.getD []) (e2.people.getD [])).length * 2 +
      (findSharedItems (e1.organizations.getD []) (e2.organizations.getD [])).length * 2
    | _, _ => 0
  sharedCategories.length * 3 + sharedTopics.length * 2 +
    sharedKeywords.length * 1 + entityScore

/-- `calculateSimilarity(node1, node2)`: accessing `labels.categories` on
an absent labels record throws. -/
def calculateSimilarity (n1 n2 : NodeData) : Except GraphError Nat :=
  match n1.labels, n2.labels with
  | some l1, some l2 => .ok (calcSimilarityL l1 l2)
  | _, _ => .error .typeError

/-- One entry of `findSimilarArticles`'s result list. -/
structure SimilarResult where
  articleId : String
  title : Option String
  similarity : Nat
  sharedTopics : List String
  sharedKeywords : List String
deriving DecidableEq, Repr

/-! ## Stable descending sort (model of `Array.prototype.sort` with a
`(a, b) => b.key - a.key` comparator; JS sort is stable) -/

/-- Insert `x` after every element whose key is `≥ key x`. -/
def insDesc (key : α → Nat) (x : α) : List α → List α
  | [] => [x]
  | y :: ys => if key y < key x then x :: y :: ys else y :: insDesc key x ys

/-- Stable sort, descending by `key`: elements are inserted left to right,
each after all earlier elements of equal key. -/
def stableSortDesc (key : α → Nat) (l : List α) : List α :=
  l.foldl (fun acc x => insDesc key x acc) []

/-- The loop body of `findSimilarArticles` over the node-table entries. -/
def similarEntries (articleId : String) (src : NodeData) :
    List (String × NodeData) → Except GraphError (List SimilarResult)
  | [] => .ok []
  | (id, node) :: rest =>
    if id = articleId then similarEntries articleId src rest
    else
      match calculateSimilarity src node with
      | .error e => .error e
      | .ok similarity =>
        match similarEntries articleId src rest with
        | .error e => .error e
        | .ok rest' =>
          if similarity > 0 then
            match src.labels, node.labels with
            | some l1, some l2 =>
              .ok (⟨id, node.title, similarity,
                    findSharedItems (l1.topics.getD []) (l2.topics.getD []),
                    findSharedItems (l1.keywords.getD []) (l2.keywords.getD [])⟩ :: rest')
            | _, _ => .error .typeError
          else
            .ok rest'

/-- `findSimilarArticles(articleId, limit)` (default limit 5): a missing
source node yields `[]`; otherwise score against every other node, keep
positive scores, sort descending, truncate. -/
def findSimilarArticles (g : KnowledgeGraph) (articleId : String)
    (limit : Nat) : Except GraphError (List SimilarResult) :=
  match g.nodes.get articleId with
  | none => .ok []
  | some src =>
    (similarEntries articleId src g.nodes.entries).map
      (fun sims => (stableSortDesc (fun s => s.similarity) sims).take limit)

/-! ## Query index -/

/-- One entry of `queryByTopic`'s result list. -/
structure TopicResult where
  articleId : String
  title : Option String
  url : Option String
  relevance : Nat
  matchedTopics : List String
deriving DecidableEq, Repr

/-- The per-node body of `queryByTopic`, over the node-table values;
accessing `node.labels.topics` on an absent labels record throws. -/
def collectTopicResults (topicLower : String) :
    List NodeData → Except GraphError (List TopicResult)
  | [] => .ok []
  | node :: rest =>
    match node.labels with
    | none => .error .typeError
    | some l =>
      let topics := l.topics.getD []
      let categories := l.categories.getD []
      let hasMatchingTopic := topics.any (fun t => jsIncludes (lowerStr t) topicLower)
      let hasMatchingCategory := categories.any (fun c => jsIncludes (lowerStr c) topicLower)
      match collectTopicResults topicLower rest with
      | .error e => .error e
      | .ok rest' =>
        if hasMatchingTopic || hasMatchingCategory then
          .ok (⟨node.id, node.title, node.url,
                if hasMatchingTopic then 2 else 1,
                topics.filter (fun t => jsIncludes (lowerStr t) topicLower)⟩ :: rest')
        else
          .ok rest'

/-- `queryByTopic(topic, limit)` (default limit 10). -/
def queryByTopic (g : KnowledgeGraph) (topic : String) (limit : Nat) :
    Except GraphError (List TopicResult) :=
  (collectTopicResults (lowerStr topic) g.nodes.values).map
    (fun results => (stableSortDesc (fun r => r.relevance) results).take limit)

/-- One entry of `queryByKeyword`'s result list. -/
structure KeywordResult where
  articleId : String
  title : Option String
  url : Option String
  matchCount : Nat
  matchedKeywords : List String
deriving DecidableEq, Repr

/-- The per-node body of `queryByKeyword`. -/
def collectKeywordResults (keywordLower : String) :
    List NodeData → Except GraphError (List KeywordResult)
  | [] => .ok []
  | node :: rest =>
    match node.labels with
    | none => .error .typeError
    | some l =>
      let matchingKeywords :=
        (l.keywords.getD []).filter (fun k => jsIncludes (lowerStr k) keywordLower)
      match collectKeywordResults keywordLower rest with
      | .error e => .error e
      | .ok rest' =>
        if matchingKeywords.length > 0 then
          .ok (⟨node.id, node.title, node.url,
                matchingKeywords.length, matchingKeywords⟩ :: rest')
        else
          .ok rest'

/-- `queryByKeyword(keyword, limit)` (default limit 10). -/
def queryByKeyword (g : KnowledgeGraph) (keyword : String) (limit : Nat) :
    Except GraphError (List KeywordResult) :=
  (collectKeywordResults (lowerStr keyword) g.nodes.values).map
    (fun results => (stableSortDesc (fun r => r.matchCount) results).take limit)

/-! ## Stats aggregation -/

/-- `aggregation[k] = (aggregation[k] || 0) + 1` on a JS object modelled
as an insertion-ordered association list. -/
def bumpCount (acc : List (String × Nat)) (k : String) : List (String × Nat) :=
  if acc.any (fun p => p.1 = k) then
    acc.map (fun p => if p.1 = k then (p.1, p.2 + 1) else p)
  else
    acc ++ [(k, 1)]

/-- `getRelationshipTypes()`. -/
def getRelationshipTypes (g : KnowledgeGraph) : List (String × Nat) :=
  g.edges.values.foldl (fun acc e => bumpCount acc e.type) []

/-- `aggregateByField('categories')` loop; `node.labels.categories` throws
on an absent labels record. -/
def aggregateCategories (acc : List (String × Nat)) :
    List NodeData → Except GraphError (List (String × Nat))
  | [] => .ok acc
  | node :: rest =>
    match node.labels with
    | none => .error .typeError
    | some l => aggregateCategories ((l.categories.getD []).foldl bumpCount acc) rest

/-- `aggregateByField('sentiment')` loop; the truthiness test
`if (sentiment)` skips both an absent and an empty-string sentiment. -/
def aggregateSentiment (acc : List (String × Nat)) :
    List NodeData → Except GraphError (List (String × Nat))
  | [] => .ok acc
  | node :: rest =>
    match node.labels with
    | none => .error .typeError
    | some l =>
      match l.sentiment with
      | some s =>
        aggregateSentiment (if s = "" then acc else bumpCount acc s) rest
      | none => aggregateSentiment acc rest

/-- `getGraphStats()` result shape. -/
structure GraphStats where
  totalNodes : Nat
  totalEdges : Nat
  relationshipTypes : List (String × Nat)
  nodesByCategory : List (String × Nat)
  nodesBySentiment : List (String × Nat)
deriving DecidableEq, Repr

/-- `getGraphStats()`. -/
def getGraphStats (g : KnowledgeGraph) : Except GraphError GraphStats :=
  match aggregateCategories [] g.nodes.values with
  | .error e => .error e
  | .ok nodesByCategory =>
    match aggregateSentiment [] g.nodes.values with
    | .error e => .error e
    | .ok nodesBySentiment =>
      .ok ⟨g.nodes.size, g.edges.size, getRelationshipTypes g,
           nodesByCategory, nodesBySentiment⟩

/-! ## Persistence (`GraphPersistence.saveGraph` / `loadGraph`) -/

/-- The persisted snapshot shape written by `saveGraph`. -/
structure GraphSnapshot where
  version : String
  savedAt : String
  nodes : List (String × NodeData)
  edges : List (String × Edge)
  nodeEdges : List (String × List String)
  statsNodeCount : Nat
  statsEdgeCount : Nat
deriving DecidableEq, Repr

/-- `saveGraph(nodes, edges, nodeEdges)`: serializes each `Map` with
`Array.from(entries())` and each adjacency `Set` with `Array.from`. -/
def saveGraph (g : KnowledgeGraph) (now : String) : GraphSnapshot :=
  ⟨"1.0", now,
    g.nodes.entries,
    g.edges.entries,
    g.nodeEdges.entries.map (fun p => (p.1, p.2.elems)),
    g.nodes.size, g.edges.size⟩

/-- `new Map(entries)`: iterates the entry list calling `set`. -/
def jsMapOfEntries (l : List (String × β)) : JsMap β :=
  l.foldl (fun m p => m.set p.1 p.2) JsMap.empty

/-- `new Set(values)`: iterates the element list calling `add`. -/
def jsSetOfElems (l : List String) : JsSet :=
  l.foldl JsSet.add JsSet.empty

/-- `loadGraph()` deserialization: rebuilds the three `Map`s (and the
adjacency `Set`s) from the snapshot arrays. -/
def loadGraph (snap : GraphSnapshot) : KnowledgeGraph :=
  ⟨jsMapOfEntries snap.nodes,
    jsMapOfEntries snap.edges,
    jsMapOfEntries (snap.nodeEdges.map (fun p => (p.1, jsSetOfElems p.2)))⟩

/-! ## RAG pipeline (frontend `routes.js`) -/

/-- The fixed stop-word set of `extractKeywords`. -/
def stopWords : List String :=
  ["a", "an", "and", "are", "as", "at", "be", "by", "for",
   "from", "has", "he", "in", "is", "it", "its", "of", "on",
   "that", "the", "to", "was", "will", "with", "what", "when",
   "where", "who", "how", "about", "can", "could", "should"]

/-- A regex `\w` word character (`[A-Za-z0-9_]`). -/
def isWordChar (c : Char) : Bool :=
  ('a' ≤ c && c ≤ 'z') || ('A' ≤ c && c ≤ 'Z') || ('0' ≤ c && c ≤ '9') || c = '_'

/-- A regex `\s` whitespace character (ASCII portion). -/
def isSpaceChar (c : Char) : Bool :=
  c = ' ' || c = '\t' || c = '\n' || c = '\r' || c = '\x0b' || c = '\x0c'

/-- Split a character list at whitespace characters into (possibly empty)
tokens; empty tokens are discarded by the length filter that always
follows, matching `split(/\s+/)`. -/
def splitTokens : List Char → List (List Char)
  | [] => [[]]
  | c :: cs =>
    if isSpaceChar c then [] :: splitTokens cs
    else
      match splitTokens cs with
      | t :: ts => (c :: t) :: ts
      | [] => [[c]]

/-- `extractKeywords(query)`: lowercase, replace non-word non-space
characters by a space, split on whitespace, drop tokens of length `≤ 2`
and stop words, keep the first 10. -/
def extractKeywords (query : String) : List String :=
  let cleaned : List Char :=
    (lowerStr query).data.map (fun c => if isWordChar c || isSpaceChar c then c else ' ')
  let tokens : List String := (splitTokens cleaned).map (fun t => ⟨t⟩)
  (tokens.filter (fun w => w.length > 2 && !(stopWords.contains w))).take 10

/-- An article together with the `relevanceScore` attached by
`rankArticlesByRelevance`. -/
structure Ranked where
  article : Article
  relevanceScore : Nat
deriving DecidableEq, Repr

/-- The score accumulation of `rankArticlesByRelevance` for one article
(optional chaining makes every access total: an absent title, labels
record or summary simply contributes nothing). -/
def rankScore (queryLower : String) (keywords : List String) (a : Article) : Nat :=
  let score0 : Nat :=
    if (a.title.map (fun t => jsIncludes (lowerStr t) queryLower)).getD false
    then 10 else 0
  let score1 :=
    keywords.foldl
      (fun s k =>
        if (a.title.map (fun t => jsIncludes (lowerStr t) k)).getD false
        then s + 5 else s)
      score0
  let topics := (a.labels.bind (fun l => l.topics)).getD []
  let score2 :=
    keywords.foldl
      (fun s k =>
        topics.foldl (fun s' t => if jsIncludes (lowerStr t) k then s' + 3 else s') s)
      score1
  let categories := (a.labels.bind (fun l => l.categories)).getD []
  let score3 :=
    keywords.foldl
      (fun s k =>
        categories.foldl (fun s' c => if jsIncludes (lowerStr c) k then s' + 2 else s') s)
      score2
  let articleKeywords := (a.labels.bind (fun l => l.keywords)).getD []
  let score4 :=
    keywords.foldl
      (fun s k =>
        articleKeywords.foldl
          (fun s' ak => if jsIncludes (lowerStr ak) k then s' + 1 else s') s)
      score3
  if ((a.labels.bind (fun l => l.summary)).map
        (fun su => jsIncludes (lowerStr su) queryLower)).getD false
  then score4 + 4 else score4

/-- `rankArticlesByRelevance(query, articles)`: attach scores, drop zero
scores, stable-sort descending by score. -/
def rankArticlesByRelevance (query : String) (articles : List Article) :
    List Ranked :=
  let queryLower := lowerStr query
  let keywords := extractKeywords query
  let scored := articles.map (fun a => Ranked.mk a (rankScore queryLower keywords a))
  stableSortDesc (fun r => r.relevanceScore)
    (scored.filter (fun r => r.relevanceScore > 0))

/-! ## `POST /api/query` aggregation over settled strategies -/

/-- The settled outcome of one retrieval strategy: `some articles` for a
fulfilled promise, `none` for a rejected one. -/
abbrev StrategyOutcome := Option (List Article)

/-- The `retrievalResults.forEach` merge: walk the settled outcomes in
strategy order, skip rejections, and push each article whose id has not
been seen yet. -/
def mergeSettled (st : List String × List Article) :
    List StrategyOutcome → List String × List Article
  | [] => st
  | outcome :: rest =>
    match outcome with
    | none => mergeSettled st rest
    | some articles =>
      mergeSettled
        (articles.foldl
          (fun st a =>
            if a.id ∈ st.1 then st else (a.id :: st.1, st.2 ++ [a]))
          st)
        rest

/-- The deduplicated `allArticles` list of the query route. -/
def aggregateSettled (settled : List StrategyOutcome) : List Article :=
  (mergeSettled ([], []) settled).2

/-- One entry of the route's `sources` array. -/
structure QuerySource where
  id : String
  title : Option String
  url : Option String
  categories : List String
  topics : List String
  summary : Option String
  relevanceScore : Nat
deriving DecidableEq, Repr

/-- The route's JSON response (the fields the claims are about). -/
structure QueryResponse where
  success : Bool
  query : String
  answer : String
  sources : List QuerySource
  totalArticlesSearched : Nat
  sourcesUsed : Nat
deriving DecidableEq, Repr

/-- The `POST /api/query` handler from the point where the three settled
strategy outcomes are in hand (`answer` stands for the generation
collaborator's text): aggregate, rank, truncate to `maxSources`, and
respond with `success: true` regardless of which strategies failed. -/
def queryRoute (query : String) (maxSources : Nat)
    (settled : List StrategyOutcome) (answer : String) : QueryResponse :=
  let allArticles := aggregateSettled settled
  let rankedArticles := (rankArticlesByRelevance query allArticles).take maxSources
  { success := true
    query := query
    answer := answer
    sources := rankedArticles.map (fun r =>
      ⟨r.article.id, r.article.title, r.article.url,
        (r.article.labels.bind (fun l => l.categories)).getD [],
        (r.article.labels.bind (fun l => l.topics)).getD [],
        r.article.labels.bind (fun l => l.summary),
        r.relevanceScore⟩)
    totalArticlesSearched := allArticles.length
    sourcesUsed := rankedArticles.length }

/-! ## Lemmas about the `Map`/`Set` models -/

namespace JsMap

theorem setEntries_length_of_mem {k : String} {v : β} :
    ∀ {l : List (String × β)}, (l.any (fun p => p.1 = k)) = true →
      (setEntries k v l).length = l.length := by
  intro l
  induction l with
  | nil => simp
  | cons p rest ih =>
    intro h
    by_cases hp : p.1 = k
    · simp [setEntries, hp]
    · simp only [List.any_cons, Bool.or_eq_true, decide_eq_true_eq] at h
      rcases h with h | h
      · exact absurd h hp
      · simp [setEntries, hp, ih h]

theorem setEntries_keys_of_mem {k : String} {v : β} :
    ∀ {l : List (String × β)}, (l.any (fun p => p.1 = k)) = true →
      (setEntries k v l).map (fun p => p.1) = l.map (fun p => p.1) := by
  intro l
  induction l with
  | nil => simp
  | cons p rest ih =>
    intro h
    by_cases hp : p.1 = k
    · simp [setEntries, hp]
    · simp only [List.any_cons, Bool.or_eq_true, decide_eq_true_eq] at h
      rcases h with h | h
      · exact absurd h hp
      · simp [setEntries, hp, ih h]

theorem find?_setEntries_self {k : String} {v : β} :
    ∀ (l : List (String × β)),
      (setEntries k v l).find? (fun p => p.1 = k) = some (k, v) := by
  intro l
  induction l with
  | nil => simp [setEntries]
  | cons p rest ih =>
    by_cases hp : p.1 = k
    · simp [setEntries, hp]
    · simp [setEntries, hp, ih]

theorem find?_setEntries_ne {k k' : String} {v : β} (hne : k' ≠ k) :
    ∀ (l : List (String × β)),
      (setEntries k v l).find? (fun p => p.1 = k') =
        l.find? (fun p => p.1 = k') := by
  have hkk' : ¬ (k = k') := fun h => hne h.symm
  intro l
  induction l with
  | nil =>
    simp only [setEntries, List.find?_nil]
    rw [List.find?_cons_of_neg _ (by simpa using hkk'), List.find?_nil]
  | cons p rest ih =>
    by_cases hp : p.1 = k
    · simp only [setEntries, hp, if_true]
      rw [List.find?_cons_of_neg _ (by simpa using hkk'),
        List.find?_cons_of_neg _ (by simp [hp, hkk'])]
    · simp only [setEntries, hp, if_false]
      by_cases hp' : p.1 = k'
      · rw [List.find?_cons_of_pos _ (by simpa using hp'),
          List.find?_cons_of_pos _ (by simpa using hp')]
      · rw [List.find?_cons_of_neg _ (by simpa using hp'),
          List.find?_cons_of_neg _ (by simpa using hp'), ih]

theorem setEntries_of_find? {k : String} {v : β} :
    ∀ {l : List (String × β)},
      l.find? (fun p => p.1 = k) = some (k, v) → setEntries k v l = l := by
  intro l
  induction l with
  | nil => simp
  | cons p rest ih =>
    intro h
    by_cases hp : p.1 = k
    · rw [List.find?_cons_of_pos _ (by simpa using hp)] at h
      simp only [Option.some.injEq] at h
      simp [setEntries, hp, ← h]
    · rw [List.find?_cons_of_neg _ (by simpa using hp)] at h
      simp [setEntries, hp, ih h]

theorem get_set_self (m : JsMap β) (k : String) (v : β) :
    (m.set k v).get k = some v := by
  simp [get, set, find?_setEntries_self]

theorem get_set_ne (m : JsMap β) {k k' : String} (v : β) (hne : k' ≠ k) :
    (m.set k v).get k' = m.get k' := by
  simp [get, set, find?_setEntries_ne hne]

theorem set_of_get (m : JsMap β) {k : String} {v : β}
    (h : m.get k = some v) : m.set k v = m := by
  rcases m with ⟨entries⟩
  simp only [get, Option.map_eq_some'] at h
  rcases h with ⟨p, hp, hv⟩
  have hk : p.1 = k := by
    have := List.find?_some hp
    simpa using this
  have hpkv : p = (k, v) := by
    rcases p with ⟨a, b⟩
    simp only at hk hv
    simp [hk, hv]
  simp only [set, mk.injEq]
  exact setEntries_of_find? (hpkv ▸ hp)

theorem has_eq_isSome_get (m : JsMap β) (k : String) :
    m.has k = (m.get k).isSome := by
  rcases m with ⟨entries⟩
  induction entries with
  | nil => simp [has, get]
  | cons p rest ih =>
    by_cases hp : p.1 = k
    · simp [has, get, hp]
    · simpa [has, get, hp] using ih

theorem size_set_of_has (m : JsMap β) {k : String} (v : β)
    (h : m.has k = true) : (m.set k v).size = m.size := by
  simpa [set, size] using setEntries_length_of_mem (by simpa [has] using h)

theorem keys_set_of_has (m : JsMap β) {k : String} (v : β)
    (h : m.has k = true) : (m.set k v).keys = m.keys := by
  simpa [set, keys] using setEntries_keys_of_mem (by simpa [has] using h)

theorem has_set_self (m : JsMap β) (k : String) (v : β) :
    (m.set k v).has k = true := by
  simp [has_eq_isSome_get, get_set_self]

end JsMap

namespace JsSet

theorem mem_add_self (s : JsSet) (x : String) : x ∈ (s.add x).elems := by
  by_cases h : x ∈ s.elems <;> simp [add, h]

theorem add_of_mem {s : JsSet} {x : String} (h : x ∈ s.elems) :
    s.add x = s := by
  simp [add, h]

end JsSet

/-! ## C3: `addEdge` with a missing endpoint -/

/-- **C3.** When `addRelationship` is called with at least one endpoint id
absent from the node table, it fails with `NodeNotFound` and the graph
state it leaves behind is exactly the state it was given: node table,
edge table and adjacency index are all unchanged. -/
theorem addRelationship_missing_endpoint_no_mutation
    (g : KnowledgeGraph) (fromId toId relationshipType : String)
    (metadata : MetaRecord) (now : String)
    (h : ¬ (g.nodes.has fromId = true ∧ g.nodes.has toId = true)) :
    addRelationship g fromId toId relationshipType metadata now =
      .error (.nodeNotFound, g) := by
  simp [addRelationship, h]

/-- Witness for C3: on a one-node graph, an edge to a missing endpoint is
rejected with `nodeNotFound` and the returned state is the input state. -/
theorem addRelationship_missing_endpoint_no_mutation_witness :
    addRelationship
      ⟨⟨[("A", ⟨"A", none, none, some emptyLabels, "t0"⟩)]⟩, ⟨[]⟩,
        ⟨[("A", ⟨[]⟩)]⟩⟩
      "A" "B" "RELATES_TO" [] "t1" =
      .error (.nodeNotFound,
        ⟨⟨[("A", ⟨"A", none, none, some emptyLabels, "t0"⟩)]⟩, ⟨[]⟩,
          ⟨[("A", ⟨[]⟩)]⟩⟩) :=
  addRelationship_missing_endpoint_no_mutation _ _ _ _ _ _ (by decide)

/-! ## C8: node upsert preserves edges and adjacency -/

/-- **C8.** Re-adding a node whose id already exists (so that its
adjacency entry exists as well, as `addArticleNode` guarantees for every
stored node) overwrites the node's attributes in place — the key list of
the node table is unchanged and the id now maps to the fresh node data —
while the edge table and the whole adjacency index (in particular that
node's incident-edge set) are left exactly as they were. -/
theorem addArticleNode_upsert_preserves_edges
    (g : KnowledgeGraph) (article : Article) (now : String)
    (hn : g.nodes.has article.id = true)
    (he : g.nodeEdges.has article.id = true) :
    (addArticleNode g article now).2.edges = g.edges ∧
    (addArticleNode g article now).2.nodeEdges = g.nodeEdges ∧
    (addArticleNode g article now).2.nodes.keys = g.nodes.keys ∧
    (addArticleNode g article now).2.nodes.get article.id =
      some (addArticleNode g article now).1 := by
  refine ⟨rfl, ?_, ?_, ?_⟩
  · simp [addArticleNode, he]
  · simpa [addArticleNode] using g.nodes.keys_set_of_has _ hn
  · simp [addArticleNode, JsMap.get_set_self]

/-- Witness for C8, on a graph with one node, one self-loop edge and a
non-empty adjacency set. -/
theorem addArticleNode_upsert_preserves_edges_witness :
    (addArticleNode
        ⟨⟨[("A", ⟨"A", some "old", none, some emptyLabels, "t0"⟩)]⟩,
          ⟨[("A-RELATES_TO-A", ⟨"A-RELATES_TO-A", "A", "A", "RELATES_TO", [], "t0"⟩)]⟩,
          ⟨[("A", ⟨["A-RELATES_TO-A"]⟩)]⟩⟩
        ⟨"A", some "new", none, none⟩ "t1").2.edges =
      ⟨[("A-RELATES_TO-A", ⟨"A-RELATES_TO-A", "A", "A", "RELATES_TO", [], "t0"⟩)]⟩ ∧
    (addArticleNode
        ⟨⟨[("A", ⟨"A", some "old", none, some emptyLabels, "t0"⟩)]⟩,
          ⟨[("A-RELATES_TO-A", ⟨"A-RELATES_TO-A", "A", "A", "RELATES_TO", [], "t0"⟩)]⟩,
          ⟨[("A", ⟨["A-RELATES_TO-A"]⟩)]⟩⟩
        ⟨"A", some "new", none, none⟩ "t1").2.nodeEdges =
      ⟨[("A", ⟨["A-RELATES_TO-A"]⟩)]⟩ :=
  ⟨(addArticleNode_upsert_preserves_edges _ ⟨"A", some "new", none, none⟩ "t1"
      (by decide) (by decide)).1,
    (addArticleNode_upsert_preserves_edges _ ⟨"A", some "new", none, none⟩ "t1"
      (by decide) (by decide)).2.1⟩

/-! ## C7: idempotent edge re-insertion -/

/-- **C7.** On any graph whose two endpoints exist (with their adjacency
entries, as `addArticleNode` guarantees), a first `addRelationship`
succeeds, and re-invoking it with different metadata succeeds again and
leaves the edge count and the size of both endpoints' adjacency sets
unchanged: the second call overwrites the prior edge's metadata, and
re-adding the id to the adjacency sets is a no-op. -/
theorem addRelationship_idempotent
    (g : KnowledgeGraph) (a b relationshipType : String)
    (m1 m2 : MetaRecord) (now1 now2 : String)
    (ha : g.nodes.has a = true) (hb : g.nodes.has b = true)
    (sa : JsSet) (hsa : g.nodeEdges.get a = some sa)
    (sb : JsSet) (hsb : g.nodeEdges.get b = some sb) :
    ∃ e1 g1 e2 g2,
      addRelationship g a b relationshipType m1 now1 = .ok (e1, g1) ∧
      addRelationship g1 a b relationshipType m2 now2 = .ok (e2, g2) ∧
      g2.edges.size = g1.edges.size ∧
      g2.nodeEdges = g1.nodeEdges := by
  set eid := edgeIdOf a relationshipType b with heid
  set e1 : Edge := ⟨eid, a, b, relationshipType, m1, now1⟩ with he1
  -- the state after the first call
  set N1 : JsMap JsSet :=
    (g.nodeEdges.set a (sa.add eid)).set b
      (((g.nodeEdges.set a (sa.add eid)).get b).getD JsSet.empty |>.add eid)
    with hN1
  have hgetb : (g.nodeEdges.set a (sa.add eid)).get b =
      some (if b = a then sa.add eid else sb) := by
    by_cases hba : b = a
    · subst hba
      simp [JsMap.get_set_self]
    · rw [JsMap.get_set_ne _ _ hba, hsb]
      simp [hba]
  have hfirst : addRelationship g a b relationshipType m1 now1 =
      .ok (e1, ⟨g.nodes, g.edges.set eid e1, N1⟩) := by
    rw [addRelationship]
    simp only [ha, hb, and_self, not_true_eq_false, if_false]
    rw [← heid, hsa]
    simp only [hgetb, hN1, ← he1]
    rcases hgetb' : (g.nodeEdges.set a (sa.add eid)).get b with _ | s
    · rw [hgetb'] at hgetb; cases hgetb
    · rw [hgetb'] at hgetb
      simp only [Option.some.injEq] at hgetb
      simp [hgetb]
  -- facts about the adjacency index after the first call
  have hN1a : ∃ s, N1.get a = some s ∧ eid ∈ s.elems := by
    by_cases hab : a = b
    · refine ⟨(((g.nodeEdges.set a (sa.add eid)).get b).getD JsSet.empty).add eid,
        ?_, JsSet.mem_add_self _ _⟩
      rw [hN1, hab, JsMap.get_set_self]
    · refine ⟨sa.add eid, ?_, JsSet.mem_add_self _ _⟩
      rw [hN1, JsMap.get_set_ne _ _ hab, JsMap.get_set_self]
  have hN1b : ∃ s, N1.get b = some s ∧ eid ∈ s.elems :=
    ⟨_, by rw [hN1, JsMap.get_set_self], JsSet.mem_add_self _ _⟩
  rcases hN1a with ⟨ta, hta, hmema⟩
  rcases hN1b with ⟨tb, htb, hmemb⟩
  set e2 : Edge := ⟨eid, a, b, relationshipType, m2, now2⟩ with he2
  have hsecond :
      addRelationship ⟨g.nodes, g.edges.set eid e1, N1⟩ a b relationshipType m2 now2 =
      .ok (e2, ⟨g.nodes, (g.edges.set eid e1).set eid e2, N1⟩) := by
    rw [addRelationship]
    simp only [ha, hb, and_self, not_true_eq_false, if_false, ← heid, hta,
      JsSet.add_of_mem hmema, JsMap.set_of_get _ hta, htb,
      JsSet.add_of_mem hmemb, JsMap.set_of_get _ htb]
  refine ⟨e1, _, e2, _, hfirst, hsecond, ?_, rfl⟩
  exact (g.edges.set eid e1).size_set_of_has e2 (g.edges.has_set_self eid e1)

/-- Witness for C7: on a concrete two-node graph, the re-inserted edge
keeps the edge count at 1 and the adjacency index unchanged. -/
theorem addRelationship_idempotent_witness :
    ∃ e1 g1 e2 g2,
      addRelationship
        ⟨⟨[("A", ⟨"A", none, none, some emptyLabels, "t0"⟩),
            ("B", ⟨"B", none, none, some emptyLabels, "t0"⟩)]⟩,
          ⟨[]⟩, ⟨[("A", ⟨[]⟩), ("B", ⟨[]⟩)]⟩⟩
        "A" "B" "RELATES_TO" [("strength", "4")] "t1" = .ok (e1, g1) ∧
      addRelationship g1 "A" "B" "RELATES_TO" [("strength", "7")] "t2" =
        .ok (e2, g2) ∧
      g2.edges.size = g1.edges.size ∧
      g2.nodeEdges = g1.nodeEdges :=
  addRelationship_idempotent _ "A" "B" "RELATES_TO"
    [("strength", "4")] [("strength", "7")] "t1" "t2"
    (by decide) (by decide) ⟨[]⟩ (by decide) ⟨[]⟩ (by decide)

/-! ## C2: the derived edge id -/

/-- A fixed graph whose node table holds the ids `"a-b"`, `"a"` and `"c"`:
hyphens are legal in node ids, so all three can coexist. -/
def collisionGraph : KnowledgeGraph :=
  ⟨⟨[("a-b", ⟨"a-b", none, none, some emptyLabels, "t0"⟩),
      ("a", ⟨"a", none, none, some emptyLabels, "t0"⟩),
      ("c", ⟨"c", none, none, some emptyLabels, "t0"⟩)]⟩,
    ⟨[]⟩,
    ⟨[("a-b", ⟨[]⟩), ("a", ⟨[]⟩), ("c", ⟨[]⟩)]⟩⟩

/-- **C2, counterexample.** The triples `("a-b", "T", "c")` and
`("a", "b-T", "c")` are distinct, all their endpoints exist in
`collisionGraph`, yet they derive the same edge id `"a-b-T-c"` — the
derivation is not injective over triples of existing nodes. -/
theorem edgeId_not_injective_counterexample :
    (("a-b", "T", "c") : String × String × String) ≠ ("a", "b-T", "c") ∧
    collisionGraph.nodes.has "a-b" = true ∧
    collisionGraph.nodes.has "a" = true ∧
    collisionGraph.nodes.has "c" = true ∧
    edgeIdOf "a-b" "T" "c" = edgeIdOf "a" "b-T" "c" := by
  refine ⟨by decide, by decide, by decide, by decide, rfl⟩

/-- Splitting a character list at the first separator occurrence is
unambiguous when the part before it is separator-free. -/
theorem append_sep_inj {r1 r2 : List Char} :
    ∀ {a1 a2 : List Char}, '-' ∉ a1 → '-' ∉ a2 →
      a1 ++ '-' :: r1 = a2 ++ '-' :: r2 → a1 = a2 ∧ r1 = r2 := by
  intro a1
  induction a1 with
  | nil =>
    intro a2 _ h2 h
    cases a2 with
    | nil => simpa using h
    | cons d ds =>
      simp only [List.nil_append, List.cons_append, List.cons.injEq] at h
      exact absurd (h.1 ▸ List.mem_cons_self d ds) h2
  | cons c cs ih =>
    intro a2 h1 h2 h
    cases a2 with
    | nil =>
      simp only [List.cons_append, List.nil_append, List.cons.injEq] at h
      exact absurd (h.1 ▸ List.mem_cons_self c cs) h1
    | cons d ds =>
      simp only [List.cons_append, List.cons.injEq] at h
      have hrec := ih (fun hm => h1 (List.mem_cons_of_mem c hm))
        (fun hm => h2 (h.1 ▸ List.mem_cons_of_mem d hm)) h.2
      exact ⟨by simp [h.1, hrec.1], hrec.2⟩

/-- **C2, amended.** The edge id is a deterministic function of the triple
`(fromId, relationshipType, toId)`, and this derivation is injective as
long as neither `fromId` nor `relationshipType` contains the `'-'`
separator character: two triples of hyphen-free endpoints/types with the
same derived id coincide. -/
theorem edgeIdOf_injective_of_sep_free
    (f1 t1 b1 f2 t2 b2 : String)
    (hf1 : '-' ∉ f1.data) (ht1 : '-' ∉ t1.data)
    (hf2 : '-' ∉ f2.data) (ht2 : '-' ∉ t2.data)
    (h : edgeIdOf f1 t1 b1 = edgeIdOf f2 t2 b2) :
    f1 = f2 ∧ t1 = t2 ∧ b1 = b2 := by
  have hd : f1.data ++ '-' :: (t1.data ++ '-' :: b1.data) =
      f2.data ++ '-' :: (t2.data ++ '-' :: b2.data) := by
    have := congrArg String.data h
    simpa [edgeIdOf, String.data_append, List.append_assoc] using this
  have h1 := append_sep_inj hf1 hf2 hd
  have h2 := append_sep_inj ht1 ht2 h1.2
  exact ⟨String.ext h1.1, String.ext h2.1, String.ext h2.2⟩

/-- Witness for the amended C2 at hyphen-free inputs. -/
theorem edgeIdOf_injective_of_sep_free_witness :
    ("article7" : String) = "article7" ∧
    ("RELATES_TO" : String) = "RELATES_TO" ∧ ("article9" : String) = "article9" :=
  edgeIdOf_injective_of_sep_free "article7" "RELATES_TO" "article9"
    "article7" "RELATES_TO" "article9"
    (by decide) (by decide) (by decide) (by decide) rfl

/-! ## C1: similarity symmetry -/

/-- A node whose keyword list holds the same entry twice. -/
def dupKeywordNode : NodeData :=
  ⟨"n1", some "N1", none, some { emptyLabels with keywords := some ["x", "x"] }, "t"⟩

/-- A node whose keyword list holds that entry once. -/
def oneKeywordNode : NodeData :=
  ⟨"n2", some "N2", none, some { emptyLabels with keywords := some ["x"] }, "t"⟩

/-- **C1, counterexample.** With a duplicated taxonomy entry the score is
not symmetric: `findSharedItems` filters the *second* list against the
first, so duplicates on the second node's side are counted twice.
`score(dupKeywordNode, oneKeywordNode) = 1` but the reverse is `2`. -/
theorem calculateSimilarity_not_symmetric_counterexample :
    calculateSimilarity dupKeywordNode oneKeywordNode = .ok 1 ∧
    calculateSimilarity oneKeywordNode dupKeywordNode = .ok 2 ∧
    calculateSimilarity dupKeywordNode oneKeywordNode ≠
      calculateSimilarity oneKeywordNode dupKeywordNode := by
  refine ⟨rfl, rfl, ?_⟩
  intro h
  have h2 : (Except.ok 1 : Except GraphError Nat) = Except.ok 2 := h
  simp at h2

/-- Counting the shared items of `x` inside `y` equals the cardinality of
the intersection of the case-folded `Finset`s, provided `y` is
duplicate-free after case folding. -/
theorem findSharedItems_length_eq_inter_card (x y : List String)
    (hy : (y.map lowerStr).Nodup) :
    (findSharedItems x y).length =
      ((y.map lowerStr).toFinset ∩ (x.map lowerStr).toFinset).card := by
  have hfm : (y.map lowerStr).filter (fun s => s ∈ x.map lowerStr) =
      (y.filter (fun item => lowerStr item ∈ x.map lowerStr)).map lowerStr := by
    simpa [Function.comp] using
      List.filter_map (p := fun s => decide (s ∈ x.map lowerStr)) lowerStr y
  have hnd : ((y.map lowerStr).filter (fun s => s ∈ x.map lowerStr)).Nodup :=
    hy.filter _
  calc (findSharedItems x y).length
      = ((y.map lowerStr).filter (fun s => s ∈ x.map lowerStr)).length := by
        rw [hfm, List.length_map]
        simp [findSharedItems]
    _ = ((y.map lowerStr).filter (fun s => s ∈ x.map lowerStr)).toFinset.card :=
        (List.toFinset_card_of_nodup hnd).symm
    _ = ((y.map lowerStr).toFinset ∩ (x.map lowerStr).toFinset).card := by
        congr 1
        ext s
        simp [List.mem_filter, List.mem_toFinset]

/-- When both lists are duplicate-free after case folding, the shared-item
counts agree in both directions. -/
theorem findSharedItems_length_symm {x y : List String}
    (hx : (x.map lowerStr).Nodup) (hy : (y.map lowerStr).Nodup) :
    (findSharedItems x y).length = (findSharedItems y x).length := by
  rw [findSharedItems_length_eq_inter_card x y hy,
    findSharedItems_length_eq_inter_card y x hx, Finset.inter_comm]

/-- Every taxonomy list that similarity scoring reads from a labels record
is duplicate-free after case folding. -/
def labelsCaseDistinct (l : LabelsData) : Prop :=
  ((l.categories.getD []).map lowerStr).Nodup ∧
  ((l.topics.getD []).map lowerStr).Nodup ∧
  ((l.keywords.getD []).map lowerStr).Nodup ∧
  (((l.entities.map (fun e => e.people.getD [])).getD []).map lowerStr).Nodup ∧
  (((l.entities.map (fun e => e.organizations.getD [])).getD []).map lowerStr).Nodup

/-- **C1, amended.** The similarity score is symmetric — including across
entries that differ only in letter case — whenever every taxonomy list of
the two nodes is duplicate-free up to case folding. (With duplicates it
can differ, see the counterexample.) -/
theorem calculateSimilarity_symm_of_caseDistinct
    (n1 n2 : NodeData) (l1 l2 : LabelsData)
    (h1 : n1.labels = some l1) (h2 : n2.labels = some l2)
    (hc1 : labelsCaseDistinct l1) (hc2 : labelsCaseDistinct l2) :
    calculateSimilarity n1 n2 = calculateSimilarity n2 n1 := by
  obtain ⟨hc1c, hc1t, hc1k, hc1p, hc1o⟩ := hc1
  obtain ⟨hc2c, hc2t, hc2k, hc2p, hc2o⟩ := hc2
  simp only [calculateSimilarity, h1, h2]
  congr 1
  simp only [calcSimilarityL]
  have hent :
      (match l1.entities, l2.entities with
        | some e1, some e2 =>
          (findSharedItems (e1.people.getD []) (e2.people.getD [])).length * 2 +
          (findSharedItems (e1.organizations.getD []) (e2.organizations.getD [])).length * 2
        | _, _ => 0) =
      (match l2.entities, l1.entities with
        | some e1, some e2 =>
          (findSharedItems (e1.people.getD []) (e2.people.getD [])).length * 2 +
          (findSharedItems (e1.organizations.getD []) (e2.organizations.getD [])).length * 2
        | _, _ => 0) := by
    rcases he1 : l1.entities with _ | e1 <;> rcases he2 : l2.entities with _ | e2 <;>
      simp only []
    simp only [he1, he2, Option.map_some', Option.getD_some] at hc1p hc1o hc2p hc2o
    rw [findSharedItems_length_symm hc1p hc2p, findSharedItems_length_symm hc1o hc2o]
  rw [findSharedItems_length_symm hc1c hc2c, findSharedItems_length_symm hc1t hc2t,
    findSharedItems_length_symm hc1k hc2k, hent]

/-- Witness for the amended C1: the §8 pair — topics
`["Lithium", "Supply Chain"]` against `["lithium", "Mining"]` — scores
symmetrically. -/
theorem calculateSimilarity_symm_of_caseDistinct_witness :
    calculateSimilarity
      ⟨"A", none, none,
        some { emptyLabels with topics := some ["Lithium", "Supply Chain"] }, "t"⟩
      ⟨"B", none, none,
        some { emptyLabels with topics := some ["lithium", "Mining"] }, "t"⟩ =
    calculateSimilarity
      ⟨"B", none, none,
        some { emptyLabels with topics := some ["lithium", "Mining"] }, "t"⟩
      ⟨"A", none, none,
        some { emptyLabels with topics := some ["Lithium", "Supply Chain"] }, "t"⟩ :=
  calculateSimilarity_symm_of_caseDistinct _ _ _ _ rfl rfl
    ⟨by decide, by decide, by decide, by decide, by decide⟩
    ⟨by decide, by decide, by decide, by decide, by decide⟩

/-! ## C9: snapshot / restore round trip -/

theorem JsMap.setEntries_of_not_mem {k : String} {v : β} :
    ∀ {l : List (String × β)}, (l.any (fun p => p.1 = k)) = false →
      JsMap.setEntries k v l = l ++ [(k, v)] := by
  intro l
  induction l with
  | nil => simp [JsMap.setEntries]
  | cons p rest ih =>
    intro h
    simp only [List.any_cons, Bool.or_eq_false_iff, decide_eq_false_iff_not] at h
    simp [JsMap.setEntries, h.1, ih (by simpa using h.2)]

theorem JsMap.has_set_ne (m : JsMap β) {k k' : String} (v : β) (hne : k' ≠ k) :
    (m.set k v).has k' = m.has k' := by
  rw [JsMap.has_eq_isSome_get, JsMap.has_eq_isSome_get, JsMap.get_set_ne _ _ hne]

theorem JsMap.foldl_set_fresh :
    ∀ (l : List (String × β)) (m : JsMap β),
      (∀ p ∈ l, m.has p.1 = false) → (l.map (fun p => p.1)).Nodup →
      l.foldl (fun m p => m.set p.1 p.2) m = ⟨m.entries ++ l⟩ := by
  intro l
  induction l with
  | nil => intro m _ _; simp
  | cons p rest ih =>
    intro m hfresh hnd
    simp only [List.map_cons, List.nodup_cons, List.mem_map] at hnd
    have hset : (m.set p.1 p.2).entries = m.entries ++ [(p.1, p.2)] := by
      have := JsMap.setEntries_of_not_mem (k := p.1) (v := p.2)
        (l := m.entries) (by simpa [JsMap.has] using hfresh p (by simp))
      simpa [JsMap.set] using this
    have hfresh' : ∀ q ∈ rest, (m.set p.1 p.2).has q.1 = false := by
      intro q hq
      have hne : q.1 ≠ p.1 := fun he => hnd.1 ⟨q, hq, he⟩
      rw [JsMap.has_set_ne _ _ hne]
      exact hfresh q (by simp [hq])
    calc (p :: rest).foldl (fun m p => m.set p.1 p.2) m
        = rest.foldl (fun m p => m.set p.1 p.2) (m.set p.1 p.2) := rfl
      _ = ⟨(m.set p.1 p.2).entries ++ rest⟩ := ih _ hfresh' hnd.2
      _ = ⟨m.entries ++ p :: rest⟩ := by simp [hset]

/-- `new Map(entries)` reproduces an entry list with distinct keys. -/
theorem jsMapOfEntries_eq_self {l : List (String × β)}
    (h : (l.map (fun p => p.1)).Nodup) : jsMapOfEntries l = ⟨l⟩ := by
  simpa [jsMapOfEntries, JsMap.empty] using
    JsMap.foldl_set_fresh l JsMap.empty (by intro p _; rfl) h

theorem JsSet.foldl_add_fresh :
    ∀ (l : List String) (s : JsSet),
      (∀ x ∈ l, x ∉ s.elems) → l.Nodup →
      l.foldl JsSet.add s = ⟨s.elems ++ l⟩ := by
  intro l
  induction l with
  | nil => intro s _ _; simp
  | cons x rest ih =>
    intro s hfresh hnd
    simp only [List.nodup_cons] at hnd
    have hadd : s.add x = ⟨s.elems ++ [x]⟩ := by
      simp [JsSet.add, hfresh x (by simp)]
    have hfresh' : ∀ y ∈ rest, y ∉ (s.add x).elems := by
      intro y hy
      rw [hadd]
      simp only [List.mem_append, List.mem_singleton]
      rintro (hmem | he)
      · exact hfresh y (by simp [hy]) hmem
      · exact hnd.1 (he ▸ hy)
    calc (x :: rest).foldl JsSet.add s
        = rest.foldl JsSet.add (s.add x) := rfl
      _ = ⟨(s.add x).elems ++ rest⟩ := ih _ hfresh' hnd.2
      _ = ⟨s.elems ++ x :: rest⟩ := by simp [hadd]

/-- `new Set(values)` reproduces an element list without duplicates. -/
theorem jsSetOfElems_eq_self {l : List String} (h : l.Nodup) :
    jsSetOfElems l = ⟨l⟩ := by
  simpa [jsSetOfElems, JsSet.empty] using
    JsSet.foldl_add_fresh l JsSet.empty (by intro x _; simp [JsSet.empty]) h

/-- Well-formedness that every graph reachable through the store's own
operations enjoys: `Map` keys are unique and each adjacency `Set` is
duplicate-free. -/
def GraphWF (g : KnowledgeGraph) : Prop :=
  g.nodes.keys.Nodup ∧ g.edges.keys.Nodup ∧ g.nodeEdges.keys.Nodup ∧
  ∀ p ∈ g.nodeEdges.entries, p.2.elems.Nodup

instance (g : KnowledgeGraph) : Decidable (GraphWF g) := by
  unfold GraphWF; infer_instance

/-- **C9.** Restoring the persisted snapshot reproduces the node map, the
edge map and the adjacency index exactly, whatever iteration order the
serialized arrays captured. -/
theorem loadGraph_saveGraph_roundtrip (g : KnowledgeGraph) (now : String)
    (h : GraphWF g) : loadGraph (saveGraph g now) = g := by
  obtain ⟨hn, he, hne, hsets⟩ := h
  have hmapped :
      (g.nodeEdges.entries.map (fun p => (p.1, p.2.elems))).map
        (fun p => (p.1, jsSetOfElems p.2)) = g.nodeEdges.entries := by
    rw [List.map_map]
    have : ∀ p ∈ g.nodeEdges.entries,
        ((fun p => (p.1, jsSetOfElems p.2)) ∘ (fun p => (p.1, p.2.elems))) p = p := by
      intro p hp
      simp only [Function.comp]
      rw [jsSetOfElems_eq_self (hsets p hp)]
    rw [List.map_congr_left this]
    simp
  rcases g with ⟨nodes, edges, nodeEdges⟩
  simp only [loadGraph, saveGraph, hmapped]
  rw [jsMapOfEntries_eq_self hn, jsMapOfEntries_eq_self he,
    jsMapOfEntries_eq_self hne]

/-- Witness for C9 on a two-node, one-edge graph. -/
theorem loadGraph_saveGraph_roundtrip_witness :
    loadGraph (saveGraph
      ⟨⟨[("A", ⟨"A", none, none, some emptyLabels, "t0"⟩),
          ("B", ⟨"B", none, none, some emptyLabels, "t0"⟩)]⟩,
        ⟨[("A-RELATES_TO-B", ⟨"A-RELATES_TO-B", "A", "B", "RELATES_TO", [], "t0"⟩)]⟩,
        ⟨[("A", ⟨["A-RELATES_TO-B"]⟩), ("B", ⟨["A-RELATES_TO-B"]⟩)]⟩⟩ "t1") =
      ⟨⟨[("A", ⟨"A", none, none, some emptyLabels, "t0"⟩),
          ("B", ⟨"B", none, none, some emptyLabels, "t0"⟩)]⟩,
        ⟨[("A-RELATES_TO-B", ⟨"A-RELATES_TO-B", "A", "B", "RELATES_TO", [], "t0"⟩)]⟩,
        ⟨[("A", ⟨["A-RELATES_TO-B"]⟩), ("B", ⟨["A-RELATES_TO-B"]⟩)]⟩⟩ :=
  loadGraph_saveGraph_roundtrip _ "t1" (by decide)

/-! ## Lemmas about the stable descending sort -/

theorem mem_insDesc (key : α → Nat) (x a : α) :
    ∀ (l : List α), a ∈ insDesc key x l ↔ a = x ∨ a ∈ l := by
  intro l
  induction l with
  | nil => simp [insDesc]
  | cons y ys ih =>
    by_cases h : key y < key x
    · simp [insDesc, h]
    · simp only [insDesc, h, if_false, List.mem_cons, ih]
      tauto

theorem pairwise_insDesc (key : α → Nat) (x : α) :
    ∀ {l : List α}, List.Pairwise (fun p q => key q ≤ key p) l →
      List.Pairwise (fun p q => key q ≤ key p) (insDesc key x l) := by
  intro l
  induction l with
  | nil => intro _; simp [insDesc]
  | cons y ys ih =>
    intro h
    rcases List.pairwise_cons.mp h with ⟨hy, hys⟩
    by_cases hlt : key y < key x
    · simp only [insDesc, hlt, if_true]
      refine List.pairwise_cons.mpr ⟨?_, h⟩
      intro z hz
      rcases List.mem_cons.mp hz with hz | hz
      · exact le_of_lt (hz ▸ hlt)
      · exact le_trans (hy z hz) (le_of_lt hlt)
    · simp only [insDesc, hlt, if_false]
      refine List.pairwise_cons.mpr ⟨?_, ih hys⟩
      intro z hz
      rcases (mem_insDesc key x z ys).mp hz with hz | hz
      · exact hz ▸ le_of_not_lt hlt
      · exact hy z hz

theorem mem_foldl_insDesc (key : α → Nat) (a : α) :
    ∀ (l acc : List α),
      a ∈ l.foldl (fun acc x => insDesc key x acc) acc ↔ a ∈ acc ∨ a ∈ l := by
  intro l
  induction l with
  | nil => simp
  | cons x xs ih =>
    intro acc
    simp only [List.foldl_cons, ih, mem_insDesc, List.mem_cons]
    tauto

theorem pairwise_foldl_insDesc (key : α → Nat) :
    ∀ (l acc : List α), List.Pairwise (fun p q => key q ≤ key p) acc →
      List.Pairwise (fun p q => key q ≤ key p)
        (l.foldl (fun acc x => insDesc key x acc) acc) := by
  intro l
  induction l with
  | nil => intro acc h; exact h
  | cons x xs ih =>
    intro acc h
    exact ih _ (pairwise_insDesc key x h)

theorem mem_stableSortDesc (key : α → Nat) (a : α) (l : List α) :
    a ∈ stableSortDesc key l ↔ a ∈ l := by
  simp [stableSortDesc, mem_foldl_insDesc]

theorem pairwise_stableSortDesc (key : α → Nat) (l : List α) :
    List.Pairwise (fun p q => key q ≤ key p) (stableSortDesc key l) :=
  pairwise_foldl_insDesc key l [] (by simp)

/-! ## C6: `queryByTopic` relevance scheme -/

/-- Every stored node carries a labels record (the invariant
`addArticleNode` establishes). -/
def allLabelled (g : KnowledgeGraph) : Prop :=
  ∀ n ∈ g.nodes.values, n.labels.isSome = true

instance (g : KnowledgeGraph) : Decidable (allLabelled g) := by
  unfold allLabelled; infer_instance

/-- The relevance scheme as the spec words it: relevance 2 if any topic
contains the term (case-insensitive substring), else 1 if any category
contains it, else the node is excluded. -/
def topicEntrySpec (topicLower : String) (node : NodeData) : Option TopicResult :=
  node.labels.bind (fun l =>
    let topics := l.topics.getD []
    let matched := topics.filter (fun t => jsIncludes (lowerStr t) topicLower)
    if topics.any (fun t => jsIncludes (lowerStr t) topicLower) then
      some ⟨node.id, node.title, node.url, 2, matched⟩
    else if (l.categories.getD []).any (fun c => jsIncludes (lowerStr c) topicLower) then
      some ⟨node.id, node.title, node.url, 1, matched⟩
    else
      none)

theorem collectTopicResults_eq_filterMap (topicLower : String) :
    ∀ (ns : List NodeData), (∀ n ∈ ns, n.labels.isSome = true) →
      collectTopicResults topicLower ns = .ok (ns.filterMap (topicEntrySpec topicLower)) := by
  intro ns
  induction ns with
  | nil => intro _; rfl
  | cons n rest ih =>
    intro h
    have hn : n.labels.isSome = true := h n (by simp)
    rcases hl : n.labels with _ | l
    · rw [hl] at hn; cases hn
    have hrest := ih (fun m hm => h m (by simp [hm]))
    by_cases ht : (l.topics.getD []).any (fun t => jsIncludes (lowerStr t) topicLower)
    · simp [collectTopicResults, hl, hrest, topicEntrySpec, ht, List.filterMap_cons,
        -List.any_eq_true]
    · by_cases hc :
        (l.categories.getD []).any (fun c => jsIncludes (lowerStr c) topicLower)
      · simp [collectTopicResults, hl, hrest, topicEntrySpec, ht, hc,
          List.filterMap_cons, -List.any_eq_true]
      · simp [collectTopicResults, hl, hrest, topicEntrySpec, ht, hc,
          List.filterMap_cons, -List.any_eq_true]

/-- **C6.** Under the stored-node invariant, `queryByTopic` succeeds and
returns exactly the nodes with a topic or category match, each carrying
the spec's relevance — 2 on any topic match (even if categories match
too, never 3), else 1 on a category match, matchless nodes excluded —
sorted descending by relevance and truncated to `limit`. -/
theorem queryByTopic_relevance_spec (g : KnowledgeGraph) (term : String)
    (limit : Nat) (hlab : allLabelled g) :
    ∃ rs, queryByTopic g term limit = .ok rs ∧
      rs = (stableSortDesc (fun r => r.relevance)
              (g.nodes.values.filterMap (topicEntrySpec (lowerStr term)))).take limit ∧
      List.Pairwise (fun p q => q.relevance ≤ p.relevance) rs ∧
      rs.length ≤ limit ∧
      ∀ r ∈ rs, ∃ n ∈ g.nodes.values, topicEntrySpec (lowerStr term) n = some r := by
  refine ⟨_, ?_, rfl, ?_, ?_, ?_⟩
  · rw [queryByTopic, collectTopicResults_eq_filterMap (lowerStr term) g.nodes.values hlab]
    rfl
  · exact List.Pairwise.sublist (List.take_sublist _ _) (pairwise_stableSortDesc _ _)
  · exact List.length_take_le limit _
  · intro r hr
    have hr' := (List.take_sublist limit _).subset hr
    rw [mem_stableSortDesc] at hr'
    rcases List.mem_filterMap.mp hr' with ⟨n, hn, hspec⟩
    exact ⟨n, hn, hspec⟩

/-- A three-node graph for the C6 witness: `"A"` matches the term in both
topics and categories, `"B"` only in categories, `"C"` in neither. -/
def topicWitnessGraph : KnowledgeGraph :=
  ⟨⟨[("A", ⟨"A", some "both", none,
        some ⟨some ["Lithium Market"], some ["Lithium Mining"], none, none, none, none⟩,
        "t"⟩),
      ("B", ⟨"B", some "catOnly", none,
        some ⟨some ["Lithium Market"], none, none, none, none, none⟩, "t"⟩),
      ("C", ⟨"C", some "neither", none,
        some ⟨none, some ["Cobalt"], none, none, none, none⟩, "t"⟩)]⟩,
    ⟨[]⟩, ⟨[("A", ⟨[]⟩), ("B", ⟨[]⟩), ("C", ⟨[]⟩)]⟩⟩

/-- Witness for C6: on `topicWitnessGraph`, the both-matching node scores
2 (not 3), the category-only node scores 1, and the matchless node is
excluded. -/
theorem queryByTopic_relevance_spec_witness :
    ∃ rs, queryByTopic topicWitnessGraph "lithium" 10 = .ok rs ∧
      rs = (stableSortDesc (fun r => r.relevance)
              (topicWitnessGraph.nodes.values.filterMap
                (topicEntrySpec (lowerStr "lithium")))).take 10 ∧
      List.Pairwise (fun p q => q.relevance ≤ p.relevance) rs ∧
      rs.length ≤ 10 ∧
      ∀ r ∈ rs, ∃ n ∈ topicWitnessGraph.nodes.values,
        topicEntrySpec (lowerStr "lithium") n = some r :=
  queryByTopic_relevance_spec topicWitnessGraph "lithium" 10 (by decide)

/-! ## C5: second-pass relevance scoring -/

theorem foldl_add_if (p : α → Bool) (c : Nat) :
    ∀ (l : List α) (s : Nat),
      l.foldl (fun s x => if p x then s + c else s) s = s + c * l.countP p := by
  intro l
  induction l with
  | nil => intro s; simp
  | cons x xs ih =>
    intro s
    by_cases hx : p x
    · simp only [List.foldl_cons, hx, if_true, ih, List.countP_cons, if_true]
      ring
    · simp only [List.foldl_cons, hx, if_false, ih, List.countP_cons]
      simp [hx]

theorem foldl_add_count (f : α → Nat) (c : Nat) :
    ∀ (l : List α) (s : Nat),
      l.foldl (fun s x => s + c * f x) s = s + c * (l.map f).sum := by
  intro l
  induction l with
  | nil => intro s; simp
  | cons x xs ih =>
    intro s
    simp only [List.foldl_cons, ih, List.map_cons, List.sum_cons]
    ring

theorem foldl_add_if_nested (q : β → α → Bool) (c : Nat)
    (inner : List β) :
    ∀ (l : List α) (s : Nat),
      l.foldl (fun s k => inner.foldl (fun s' t => if q t k then s' + c else s') s) s =
        s + c * (l.map (fun k => inner.countP (fun t => q t k))).sum := by
  intro l s
  have hfun : (fun s k => inner.foldl (fun s' t => if q t k then s' + c else s') s) =
      fun (s : Nat) k => s + c * inner.countP (fun t => q t k) :=
    funext fun s => funext fun k => foldl_add_if _ _ _ _
  rw [hfun, foldl_add_count]

/-- The relevance formula as the spec states it: +10 for a raw-query title
containment, +5 per extracted keyword in the title, +3 / +2 / +1 per
(keyword, topic) / (keyword, category) / (keyword, article-keyword)
containment pair, +4 for a raw-query summary containment. -/
def specRankScore (query : String) (a : Article) : Nat :=
  let queryLower := lowerStr query
  let keywords := extractKeywords query
  let topics := (a.labels.bind (fun l => l.topics)).getD []
  let categories := (a.labels.bind (fun l => l.categories)).getD []
  let articleKeywords := (a.labels.bind (fun l => l.keywords)).getD []
  (if (a.title.map (fun t => jsIncludes (lowerStr t) queryLower)).getD false
   then 10 else 0) +
  5 * keywords.countP (fun k => (a.title.map (fun t => jsIncludes (lowerStr t) k)).getD false) +
  3 * (keywords.map (fun k => topics.countP (fun t => jsIncludes (lowerStr t) k))).sum +
  2 * (keywords.map (fun k => categories.countP (fun c => jsIncludes (lowerStr c) k))).sum +
  1 * (keywords.map (fun k => articleKeywords.countP (fun t => jsIncludes (lowerStr t) k))).sum +
  (if ((a.labels.bind (fun l => l.summary)).map
        (fun su => jsIncludes (lowerStr su) queryLower)).getD false
   then 4 else 0)

/-- The accumulated score equals the spec's sum formula. -/
theorem rankScore_eq_spec (query : String) (a : Article) :
    rankScore (lowerStr query) (extractKeywords query) a = specRankScore query a := by
  simp only [rankScore, specRankScore, foldl_add_if, foldl_add_if_nested,
    foldl_add_count]
  cases hb1 : (a.title.map (fun t => jsIncludes (lowerStr t) (lowerStr query))).getD false <;>
    cases hb2 : ((a.labels.bind (fun l => l.summary)).map
        (fun su => jsIncludes (lowerStr su) (lowerStr query))).getD false <;>
    simp

/-- The §8 corpus: one article titled exactly `"Lithium Supply Chain"`. -/
def lithiumArticle : Article :=
  ⟨"a1", some "Lithium Supply Chain", some "u1",
    some ⟨none, none, some ["lithium"], none, none,
          some "Overview of the lithium supply chain."⟩⟩

/-- A corpus article sharing only the keyword `"lithium"`. -/
def cobaltArticle : Article :=
  ⟨"a2", some "Cobalt Mining Outlook", some "u2",
    some ⟨none, none, some ["lithium", "cobalt"], none, none, none⟩⟩

/-- Another corpus article sharing only the keyword `"lithium"`. -/
def batteryArticle : Article :=
  ⟨"a3", some "Battery Metals Digest", some "u3",
    some ⟨none, none, some ["lithium"], none, none, none⟩⟩

/-- **C5.** Second-pass relevance scoring: (i) `rankArticlesByRelevance`
attaches to every deduplicated article exactly the spec's sum —
`specRankScore` — drops zero-score articles and stable-sorts descending
by score; (ii) on the §8 corpus, for the query
`"lithium supply chain"`, the exact-title article is first in `sources`. -/
theorem rankArticlesByRelevance_spec :
    (∀ (query : String) (articles : List Article),
      rankArticlesByRelevance query articles =
        stableSortDesc (fun r => r.relevanceScore)
          ((articles.map (fun a => Ranked.mk a (specRankScore query a))).filter
            (fun r => r.relevanceScore > 0))) ∧
    (queryRoute "lithium supply chain" 5
        [some [cobaltArticle], none, some [lithiumArticle, batteryArticle]]
        "answer").sources.head?.map (fun s => (s.id, s.title)) =
      some ("a1", some "Lithium Supply Chain") := by
  constructor
  · intro query articles
    rw [rankArticlesByRelevance]
    have hmap : articles.map (fun a => Ranked.mk a (rankScore (lowerStr query)
        (extractKeywords query) a)) =
        articles.map (fun a => Ranked.mk a (specRankScore query a)) := by
      apply List.map_congr_left
      intro a _
      rw [rankScore_eq_spec]
    rw [hmap]
  · rfl

/-! ## C4: partial-failure-tolerant aggregation -/

/-- First-occurrence deduplication by article id, given an initial seen
set. -/
def dedupSeen (seen : List String) : List Article → List Article
  | [] => []
  | a :: rest =>
    if a.id ∈ seen then dedupSeen seen rest
    else a :: dedupSeen (a.id :: seen) rest

/-- The seen set after walking an article list. -/
def seenAfter (seen : List String) : List Article → List String
  | [] => seen
  | a :: rest =>
    if a.id ∈ seen then seenAfter seen rest else seenAfter (a.id :: seen) rest

theorem foldl_dedup_step :
    ∀ (articles : List Article) (seen : List String) (acc : List Article),
      articles.foldl
        (fun st a => if a.id ∈ st.1 then st else (a.id :: st.1, st.2 ++ [a]))
        (seen, acc) =
      (seenAfter seen articles, acc ++ dedupSeen seen articles) := by
  intro articles
  induction articles with
  | nil => intro seen acc; simp [seenAfter, dedupSeen]
  | cons a rest ih =>
    intro seen acc
    by_cases h : a.id ∈ seen
    · simp [seenAfter, dedupSeen, h, ih]
    · simp [seenAfter, dedupSeen, h, ih]

theorem mergeSettled_eq_dedup :
    ∀ (settled : List StrategyOutcome) (seen : List String) (acc : List Article),
      mergeSettled (seen, acc) settled =
        (seenAfter seen ((settled.filterMap (fun x => x)).flatten),
          acc ++ dedupSeen seen ((settled.filterMap (fun x => x)).flatten)) := by
  have hseen : ∀ (xs ys : List Article) (seen : List String),
      seenAfter seen (xs ++ ys) = seenAfter (seenAfter seen xs) ys := by
    intro xs
    induction xs with
    | nil => intro ys seen; rfl
    | cons a rest ih =>
      intro ys seen
      by_cases h : a.id ∈ seen <;> simp [seenAfter, h, ih]
  have hdedup : ∀ (xs ys : List Article) (seen : List String),
      dedupSeen seen (xs ++ ys) =
        dedupSeen seen xs ++ dedupSeen (seenAfter seen xs) ys := by
    intro xs
    induction xs with
    | nil => intro ys seen; rfl
    | cons a rest ih =>
      intro ys seen
      by_cases h : a.id ∈ seen <;> simp [seenAfter, dedupSeen, h, ih]
  intro settled
  induction settled with
  | nil => intro seen acc; simp [mergeSettled, seenAfter, dedupSeen]
  | cons outcome rest ih =>
    intro seen acc
    rcases outcome with _ | articles
    · simpa [mergeSettled] using ih seen acc
    · calc mergeSettled (seen, acc) (some articles :: rest)
          = mergeSettled (seenAfter seen articles,
              acc ++ dedupSeen seen articles) rest := by
            rw [mergeSettled, foldl_dedup_step]
        _ = _ := by
            rw [ih]
            simp [hseen, hdedup]

/-- **C4.** The aggregation over the three settled retrieval strategies:
(i) it equals first-occurrence deduplication of the concatenation of the
*fulfilled* outcomes only, so a failing strategy is dropped from the
merge with no further effect; (ii) the route's response has
`success = true` no matter which strategies failed; (iii) when all three
strategies fail the response is still a success, with an empty source
list and zero articles searched. -/
theorem queryRoute_partial_failure_tolerant :
    (∀ settled : List StrategyOutcome,
      aggregateSettled settled =
        dedupSeen [] ((settled.filterMap (fun x => x)).flatten)) ∧
    (∀ (query answer : String) (maxSources : Nat)
        (settled : List StrategyOutcome),
      (queryRoute query maxSources settled answer).success = true) ∧
    (∀ (query answer : String) (maxSources : Nat),
      queryRoute query maxSources [none, none, none] answer =
        ⟨true, query, answer, [], 0, 0⟩) := by
  refine ⟨?_, ?_, ?_⟩
  · intro settled
    rw [aggregateSettled, mergeSettled_eq_dedup]
    simp
  · intro _ _ _ _
    rfl
  · intro _ _ _
    simp [queryRoute, aggregateSettled, mergeSettled, rankArticlesByRelevance,
      stableSortDesc]

/-! ## C10: labels normalization and totality of the read operations -/

theorem JsMap.mem_values_set (m : JsMap β) (k : String) (v x : β)
    (h : x ∈ (m.set k v).values) : x = v ∨ x ∈ m.values := by
  rcases m with ⟨entries⟩
  simp only [JsMap.set, JsMap.values] at h ⊢
  induction entries with
  | nil => simpa [JsMap.setEntries] using h
  | cons p rest ih =>
    by_cases hp : p.1 = k
    · simp only [JsMap.setEntries, hp, if_true, List.map_cons, List.mem_cons] at h
      rcases h with h | h
      · exact Or.inl h
      · simp [h]
    · simp only [JsMap.setEntries, hp, if_false, List.map_cons, List.mem_cons] at h
      rcases h with h | h
      · simp [h]
      · rcases ih h with h' | h'
        · exact Or.inl h'
        · simp [h']

theorem JsMap.mem_values_of_get (m : JsMap β) (k : String) (v : β)
    (h : m.get k = some v) : v ∈ m.values := by
  simp only [JsMap.get, Option.map_eq_some'] at h
  rcases h with ⟨p, hp, hv⟩
  simp only [JsMap.values, List.mem_map]
  exact ⟨p, List.mem_of_find?_eq_some hp, hv⟩

theorem collectKeywordResults_isOk (keywordLower : String) :
    ∀ (ns : List NodeData), (∀ n ∈ ns, n.labels.isSome = true) →
      ∃ rs, collectKeywordResults keywordLower ns = .ok rs := by
  intro ns
  induction ns with
  | nil => intro _; exact ⟨[], rfl⟩
  | cons n rest ih =>
    intro h
    have hn : n.labels.isSome = true := h n (by simp)
    rcases hl : n.labels with _ | l
    · rw [hl] at hn; cases hn
    rcases ih (fun m hm => h m (by simp [hm])) with ⟨rs, hrs⟩
    by_cases hm : ((l.keywords.getD []).filter
        (fun k => jsIncludes (lowerStr k) keywordLower)).length > 0
    · exact ⟨⟨n.id, n.title, n.url,
          ((l.keywords.getD []).filter (fun k => jsIncludes (lowerStr k) keywordLower)).length,
          (l.keywords.getD []).filter (fun k => jsIncludes (lowerStr k) keywordLower)⟩ :: rs,
        by simp [collectKeywordResults, hl, hrs, hm]⟩
    · exact ⟨rs, by simp [collectKeywordResults, hl, hrs, hm]⟩

theorem similarEntries_isOk (articleId : String) (src : NodeData)
    (hsrc : src.labels.isSome = true) :
    ∀ (entries : List (String × NodeData)),
      (∀ p ∈ entries, (p.2).labels.isSome = true) →
      ∃ rs, similarEntries articleId src entries = .ok rs := by
  intro entries
  induction entries with
  | nil => intro _; exact ⟨[], rfl⟩
  | cons p rest ih =>
    intro h
    rcases p with ⟨id, node⟩
    have hn : node.labels.isSome = true := h (id, node) (by simp)
    rcases ih (fun q hq => h q (by simp [hq])) with ⟨rs, hrs⟩
    by_cases hid : id = articleId
    · exact ⟨rs, by simpa [similarEntries, hid] using hrs⟩
    rcases hl1 : src.labels with _ | l1
    · rw [hl1] at hsrc; cases hsrc
    rcases hl2 : node.labels with _ | l2
    · rw [hl2] at hn; cases hn
    by_cases hpos : calcSimilarityL l1 l2 > 0
    · exact ⟨⟨id, node.title, calcSimilarityL l1 l2,
          findSharedItems (l1.topics.getD []) (l2.topics.getD []),
          findSharedItems (l1.keywords.getD []) (l2.keywords.getD [])⟩ :: rs, by
        simp [similarEntries, hid, calculateSimilarity, hl1, hl2, hrs, hpos]⟩
    · exact ⟨rs, by
        simp [similarEntries, hid, calculateSimilarity, hl1, hl2, hrs, hpos]⟩

theorem aggregateCategories_isOk :
    ∀ (ns : List NodeData) (acc : List (String × Nat)),
      (∀ n ∈ ns, n.labels.isSome = true) →
      ∃ out, aggregateCategories acc ns = .ok out := by
  intro ns
  induction ns with
  | nil => intro acc _; exact ⟨acc, rfl⟩
  | cons n rest ih =>
    intro acc h
    have hn : n.labels.isSome = true := h n (by simp)
    rcases hl : n.labels with _ | l
    · rw [hl] at hn; cases hn
    rcases ih ((l.categories.getD []).foldl bumpCount acc)
      (fun m hm => h m (by simp [hm])) with ⟨out, hout⟩
    exact ⟨out, by simpa [aggregateCategories, hl] using hout⟩

theorem aggregateSentiment_isOk :
    ∀ (ns : List NodeData) (acc : List (String × Nat)),
      (∀ n ∈ ns, n.labels.isSome = true) →
      ∃ out, aggregateSentiment acc ns = .ok out := by
  intro ns
  induction ns with
  | nil => intro acc _; exact ⟨acc, rfl⟩
  | cons n rest ih =>
    intro acc h
    have hn : n.labels.isSome = true := h n (by simp)
    rcases hl : n.labels with _ | l
    · rw [hl] at hn; cases hn
    rcases hs : l.sentiment with _ | s
    · rcases ih acc (fun m hm => h m (by simp [hm])) with ⟨out, hout⟩
      exact ⟨out, by simpa [aggregateSentiment, hl, hs] using hout⟩
    · rcases ih (if s = "" then acc else bumpCount acc s)
        (fun m hm => h m (by simp [hm])) with ⟨out, hout⟩
      exact ⟨out, by simpa [aggregateSentiment, hl, hs] using hout⟩

/-- **C10.** Labels normalization and totality: `addArticleNode` always
stores a present labels record (a missing one becomes `{}`) and preserves
the all-labelled invariant; under that invariant, similarity scoring,
similar-article search, topic and keyword querying and stats aggregation
all succeed — none of the modelled `TypeError` throw points is
reachable on stored nodes. -/
theorem storedNodes_total_no_throw
    (g : KnowledgeGraph) (hg : allLabelled g)
    (article : Article) (now term kw articleId : String) (limit : Nat) :
    (addArticleNode g article now).1.labels.isSome = true ∧
    allLabelled (addArticleNode g article now).2 ∧
    (∀ n1 ∈ g.nodes.values, ∀ n2 ∈ g.nodes.values,
      (calculateSimilarity n1 n2).isOk = true) ∧
    (findSimilarArticles g articleId limit).isOk = true ∧
    (queryByTopic g term limit).isOk = true ∧
    (queryByKeyword g kw limit).isOk = true ∧
    (getGraphStats g).isOk = true := by
  have hvalues : ∀ n ∈ g.nodes.values, n.labels.isSome = true := hg
  refine ⟨rfl, ?_, ?_, ?_, ?_, ?_, ?_⟩
  · intro n hn
    rcases JsMap.mem_values_set g.nodes article.id _ n hn with h | h
    · rw [h]; rfl
    · exact hvalues n h

  · intro n1 h1 n2 h2
    have hs1 := hvalues n1 h1
    have hs2 := hvalues n2 h2
    rcases hl1 : n1.labels with _ | l1
    · rw [hl1] at hs1; cases hs1
    rcases hl2 : n2.labels with _ | l2
    · rw [hl2] at hs2; cases hs2
    have hok : calculateSimilarity n1 n2 = .ok (calcSimilarityL l1 l2) := by
      simp [calculateSimilarity, hl1, hl2]
    rw [hok]
    rfl
  · rw [findSimilarArticles]
    rcases hget : g.nodes.get articleId with _ | src
    · rfl
    have hsrc : src.labels.isSome = true :=
      hvalues src (JsMap.mem_values_of_get g.nodes articleId src hget)
    have hents : ∀ p ∈ g.nodes.entries, (p.2).labels.isSome = true := by
      intro p hp
      refine hvalues p.2 ?_
      simp only [JsMap.values, List.mem_map]
      exact ⟨p, hp, rfl⟩
    rcases similarEntries_isOk articleId src hsrc g.nodes.entries hents with ⟨rs, hrs⟩
    have hred : (Except.map
        (fun sims => List.take limit (stableSortDesc (fun s => s.similarity) sims))
        (similarEntries articleId src g.nodes.entries)).isOk = true := by
      rw [hrs]; rfl
    exact hred
  · rw [queryByTopic, collectTopicResults_eq_filterMap (lowerStr term) g.nodes.values hg]
    rfl
  · rcases collectKeywordResults_isOk (lowerStr kw) g.nodes.values hvalues with ⟨rs, hrs⟩
    rw [queryByKeyword, hrs]
    rfl
  · rw [getGraphStats]
    rcases aggregateCategories_isOk g.nodes.values [] hvalues with ⟨c, hc⟩
    rcases aggregateSentiment_isOk g.nodes.values [] hvalues with ⟨s, hs⟩
    rw [hc, hs]
    rfl

/-- Witness for C10 on a one-node graph whose article was ingested
without labels. -/
theorem storedNodes_total_no_throw_witness :
    (addArticleNode
        ⟨⟨[("A", ⟨"A", none, none, some emptyLabels, "t0"⟩)]⟩, ⟨[]⟩,
          ⟨[("A", ⟨[]⟩)]⟩⟩ ⟨"B", some "B", none, none⟩ "t1").1.labels.isSome = true ∧
    allLabelled (addArticleNode
        ⟨⟨[("A", ⟨"A", none, none, some emptyLabels, "t0"⟩)]⟩, ⟨[]⟩,
          ⟨[("A", ⟨[]⟩)]⟩⟩ ⟨"B", some "B", none, none⟩ "t1").2 ∧
    (∀ n1 ∈ (⟨⟨[("A", ⟨"A", none, none, some emptyLabels, "t0"⟩)]⟩, ⟨[]⟩,
          ⟨[("A", ⟨[]⟩)]⟩⟩ : KnowledgeGraph).nodes.values,
      ∀ n2 ∈ (⟨⟨[("A", ⟨"A", none, none, some emptyLabels, "t0"⟩)]⟩, ⟨[]⟩,
          ⟨[("A", ⟨[]⟩)]⟩⟩ : KnowledgeGraph).nodes.values,
        (calculateSimilarity n1 n2).isOk = true) ∧
    (findSimilarArticles
        ⟨⟨[("A", ⟨"A", none, none, some emptyLabels, "t0"⟩)]⟩, ⟨[]⟩,
          ⟨[("A", ⟨[]⟩)]⟩⟩ "A" 5).isOk = true ∧
    (queryByTopic
        ⟨⟨[("A", ⟨"A", none, none, some emptyLabels, "t0"⟩)]⟩, ⟨[]⟩,
          ⟨[("A", ⟨[]⟩)]⟩⟩ "lithium" 5).isOk = true ∧
    (queryByKeyword
        ⟨⟨[("A", ⟨"A", none, none, some emptyLabels, "t0"⟩)]⟩, ⟨[]⟩,
          ⟨[("A", ⟨[]⟩)]⟩⟩ "lithium" 5).isOk = true ∧
    (getGraphStats
        ⟨⟨[("A", ⟨"A", none, none, some emptyLabels, "t0"⟩)]⟩, ⟨[]⟩,
          ⟨[("A", ⟨[]⟩)]⟩⟩).isOk = true :=
  storedNodes_total_no_throw _ (by decide) ⟨"B", some "B", none, none⟩
    "t1" "lithium" "lithium" "A" 5

end MaterialsAnalysis
